import Mathlib

/-!
Verification of the recurring-task scheduling engine of the moo-todo
repository: calendar arithmetic (month-end clipping, leap years), rule
normalization, occurrence scheduling, and the API error-wrapping layer.

The `TodoService` implementation module is not part of the provided
sources (only its unit tests and its `api.py` callers are), so the
scheduling functions are modelled from the specification; the
`api_error_handler` decorator is translated directly from `src/api.py`.
-/

namespace MooTodo

/-- Gregorian leap-year test, as Python's `calendar.isleap`. -/
def isLeap (y : Nat) : Bool :=
  (y % 4 == 0 && y % 100 != 0) || (y % 400 == 0)

/-- Days in month `m` (1-12) of a year with leap flag `leap`. -/
def daysInMonthB (leap : Bool) (m : Nat) : Nat :=
  if m == 2 then (if leap then 29 else 28)
  else if m == 4 || m == 6 || m == 9 || m == 11 then 30
  else 31

/-- Days in month `m` of year `y`. -/
def daysInMonth (y m : Nat) : Nat := daysInMonthB (isLeap y) m

/-- A calendar date, year-month-day. -/
structure Date where
  year : Nat
  month : Nat
  day : Nat
deriving DecidableEq

/-- A structurally valid proleptic-Gregorian date (year at least 1). -/
def Date.valid (d : Date) : Bool :=
  1 ≤ d.year && 1 ≤ d.month && d.month ≤ 12 &&
  1 ≤ d.day && d.day ≤ daysInMonth d.year d.month

/-- Days in the months strictly before month `m` in a year with leap flag
`leap` (`m = 1` gives 0). -/
def daysBeforeMonthB (leap : Bool) : Nat → Nat
  | 0 => 0
  | 1 => 0
  | m + 2 => daysBeforeMonthB leap (m + 1) + daysInMonthB leap (m + 1)

/-- Number of leap years in `[1, y-1]`. -/
def leapsBefore (y : Nat) : Nat :=
  (y - 1) / 4 - (y - 1) / 100 + (y - 1) / 400

/-- Day count since 0001-01-01 (which is day 0, a Monday in the proleptic
Gregorian calendar, matching Python's `date.toordinal() - 1`). -/
def toRataDie (d : Date) : Nat :=
  365 * (d.year - 1) + leapsBefore d.year +
    daysBeforeMonthB (isLeap d.year) d.month + (d.day - 1)

/-- Day of week, Monday = 0, as Python's `date.weekday()`. -/
def Date.weekday (d : Date) : Nat := toRataDie d % 7

/-- Week number of a date: weeks run Monday through Sunday, week 0
starting 0001-01-01 (used to state the weekly rule's "every Nth week,
measured in whole weeks from the source date's week"). -/
def weekIndex (d : Date) : Nat := toRataDie d / 7

/-- The calendar successor of a date. -/
def nextDay (d : Date) : Date :=
  if d.day < daysInMonth d.year d.month then ⟨d.year, d.month, d.day + 1⟩
  else if d.month < 12 then ⟨d.year, d.month + 1, 1⟩
  else ⟨d.year + 1, 1, 1⟩

/-- Add `n` days to a date, as Python's `date + timedelta(days=n)`. -/
def addDays (d : Date) : Nat → Date
  | 0 => d
  | n + 1 => nextDay (addDays d n)

/-- Lexicographic date comparison (on valid dates this is chronological). -/
def dateLe (d e : Date) : Bool :=
  d.year < e.year ||
  (d.year == e.year &&
    (d.month < e.month || (d.month == e.month && d.day ≤ e.day)))

/-- Left-pad the decimal representation of `n` with zeros to width 2. -/
def pad2 (n : Nat) : String :=
  if n < 10 then "0" ++ toString n else toString n

/-- Left-pad the decimal representation of `n` with zeros to width 4. -/
def pad4 (n : Nat) : String :=
  if n < 10 then "000" ++ toString n
  else if n < 100 then "00" ++ toString n
  else if n < 1000 then "0" ++ toString n
  else toString n

/-- Render a date in the boundary format `YYYY-MM-DD`. -/
def formatDate (d : Date) : String :=
  pad4 d.year ++ "-" ++ pad2 d.month ++ "-" ++ pad2 d.day

/-- A JSON-ish value as it may appear in a raw rule mapping supplied by a
caller: an integer, a string, a list, or a missing/other value. -/
inductive RawVal where
  | int (n : Int)
  | str (s : String)
  | list (xs : List RawVal)
  | none

/-- A raw repetition-rule mapping as supplied by a caller; every field may
be missing (`RawVal.none`) or carry a wrongly typed value. -/
structure RawRule where
  rtype : RawVal := .none
  interval : RawVal := .none
  weekdays : RawVal := .none
  month_day : RawVal := .none
  end_type : RawVal := .none
  end_date : RawVal := .none
  end_count : RawVal := .none
  generated_count : RawVal := .none

/-- A normalized recurrence rule (the Normalizer's output shape). -/
structure RecurrenceRule where
  rtype : String
  interval : Nat
  weekdays : List Nat
  month_day : Option Nat
  end_type : String
  end_date : Option String
  end_count : Option Nat
  generated_count : Nat
deriving DecidableEq

/-- The valid cadence types of §3. -/
def validTypes : List String := ["daily", "weekly", "monthly", "yearly"]

/-- Modelled from the spec: unknown or missing `type` normalizes to `""`
(`todo_service.py` is not among the provided sources). -/
def normType (v : RawVal) : String :=
  match v with
  | .str s => if s ∈ validTypes then s else ""
  | _ => ""

/-- The decimal value of a digit character, `Option.none` otherwise. -/
def charDigit? (c : Char) : Option Nat :=
  if '0' ≤ c ∧ c ≤ '9' then some (c.toNat - '0'.toNat) else Option.none

/-- Fold a run of decimal digits into a number; any non-digit fails. -/
def parseNatAux : List Char → Nat → Option Nat
  | [], acc => some acc
  | c :: cs, acc =>
    match charDigit? c with
    | some d => parseNatAux cs (acc * 10 + d)
    | Option.none => Option.none

/-- Parse a non-empty all-digit string as a natural number, as Python's
`int(...)` succeeds on it (anything else raises and is "not
parseable"). -/
def parseNat? (s : String) : Option Nat :=
  match s.data with
  | [] => Option.none
  | cs => parseNatAux cs 0

/-- Modelled from the spec: an `interval` not parseable as a positive
integer normalizes to 1. -/
def normInterval (v : RawVal) : Nat :=
  match v with
  | .int n => if 1 ≤ n then n.toNat else 1
  | .str s =>
    match parseNat? s with
    | some n => if 1 ≤ n then n else 1
    | Option.none => 1
  | _ => 1

/-- Keep a raw weekdays entry only when it is an integer in `[0, 6]`. -/
def keepWeekday (v : RawVal) : Option Nat :=
  match v with
  | .int n => if 0 ≤ n && n ≤ 6 then some n.toNat else Option.none
  | _ => Option.none

/-- Insert `n` into a strictly ascending list, dropping it if present. -/
def insertWd (n : Nat) : List Nat → List Nat
  | [] => [n]
  | m :: ms =>
    if n < m then n :: m :: ms
    else if n = m then m :: ms
    else m :: insertWd n ms

/-- Sort ascending and deduplicate. -/
def sortDedup : List Nat → List Nat
  | [] => []
  | n :: ns => insertWd n (sortDedup ns)

/-- Modelled from the spec: weekday entries that are not integers in
`[0, 6]` are discarded, the rest deduplicated and sorted ascending;
weekdays normalize to `[]` whenever the resolved type is not `weekly`. -/
def normWeekdays (resolvedType : String) (v : RawVal) : List Nat :=
  if resolvedType = "weekly" then
    match v with
    | .list xs => sortDedup (xs.filterMap keepWeekday)
    | _ => []
  else []

/-- Modelled from the spec: a `month_day` outside `[1, 31]` is dropped. -/
def normMonthDay (v : RawVal) : Option Nat :=
  match v with
  | .int n => if 1 ≤ n && n ≤ 31 then some n.toNat else Option.none
  | _ => Option.none

/-- The valid end conditions of §3. -/
def validEndTypes : List String := ["never", "date", "count"]

/-- Modelled from the spec: an `end_type` outside {never, date, count}
normalizes to `never`. -/
def normEndType (v : RawVal) : String :=
  match v with
  | .str s => if s ∈ validEndTypes then s else "never"
  | _ => "never"

/-- Keep a string `end_date`, drop anything else. -/
def normEndDate (v : RawVal) : Option String :=
  match v with
  | .str s => some s
  | _ => Option.none

/-- Keep a non-negative integer `end_count`, drop anything else. -/
def normEndCount (v : RawVal) : Option Nat :=
  match v with
  | .int n => if 0 ≤ n then some n.toNat else Option.none
  | _ => Option.none

/-- Keep a non-negative integer `generated_count`, default 0. -/
def normGenCount (v : RawVal) : Nat :=
  match v with
  | .int n => if 0 ≤ n then n.toNat else 0
  | _ => 0

/-- Modelled from the spec: `TodoService._normalize_recurrence_rule`, the
total Rule Normalizer of §4.1 (`todo_service.py` is not among the
provided sources; behaviour follows §4.1 and the unit tests). -/
def normalize_recurrence_rule (r : RawRule) : RecurrenceRule :=
  let t := normType r.rtype
  { rtype := t
    interval := normInterval r.interval
    weekdays := normWeekdays t r.weekdays
    month_day := normMonthDay r.month_day
    end_type := normEndType r.end_type
    end_date := normEndDate r.end_date
    end_count := normEndCount r.end_count
    generated_count := normGenCount r.generated_count }

/-- Re-embed a normalized rule as a raw mapping (in the source the
normalized rule is itself a dict, so it can be normalized again). -/
def toRaw (r : RecurrenceRule) : RawRule :=
  { rtype := .str r.rtype
    interval := .int (r.interval : Int)
    weekdays := .list (r.weekdays.map fun (w : Nat) => RawVal.int (w : Int))
    month_day :=
      match r.month_day with
      | some n => .int (n : Int)
      | Option.none => .none
    end_type := .str r.end_type
    end_date :=
      match r.end_date with
      | some s => .str s
      | Option.none => .none
    end_count :=
      match r.end_count with
      | some n => .int (n : Int)
      | Option.none => .none
    generated_count := .int (r.generated_count : Int) }

/-- 12-month index of a date's month, for stating month arithmetic. -/
def monthIndex (d : Date) : Nat := 12 * d.year + (d.month - 1)

/-- Modelled from the spec: the monthly cadence of §4.2 — advance by
`interval` months, land on `month_day` if set else on the source day,
clip to the target month's last valid day. -/
def monthlyNext (r : RecurrenceRule) (d : Date) : Date :=
  let m0 := d.month - 1 + r.interval
  let y := d.year + m0 / 12
  let m := m0 % 12 + 1
  let target := r.month_day.getD d.day
  ⟨y, m, min target (daysInMonth y m)⟩

/-- Modelled from the spec: the yearly cadence of §4.2 — advance by
`interval` years, same month and day, clipping Feb 29 to Feb 28 in a
non-leap target year. -/
def yearlyNext (r : RecurrenceRule) (d : Date) : Date :=
  let y := d.year + r.interval
  ⟨y, d.month, min d.day (daysInMonth y d.month)⟩

/-- The smallest step `i` in `[1, 7]` whose target weekday from `w0` lies
in `ws`. -/
def weeklyStep (w0 : Nat) (ws : List Nat) : Option Nat :=
  [1, 2, 3, 4, 5, 6, 7].find? fun i => ws.contains ((w0 + i) % 7)

/-- Modelled from the spec: the weekly cadence of §4.2 — with a non-empty
weekday set, the next date strictly after `d` whose weekday is in the
set, where a wrap into a later week advances by `interval` whole weeks;
with an empty set, `d` plus `interval * 7` days. -/
def weeklyNext (r : RecurrenceRule) (d : Date) : Date :=
  if r.weekdays = [] then addDays d (r.interval * 7)
  else
    match weeklyStep d.weekday r.weekdays with
    | some i =>
      if d.weekday < (d.weekday + i) % 7 then addDays d i
      else addDays (addDays d i) ((r.interval - 1) * 7)
    | Option.none => addDays d (r.interval * 7)

/-- Modelled from the spec: `TodoService._get_next_occurrence`, the pure
next-due-date computation of §4.2 (`todo_service.py` is not among the
provided sources; behaviour follows §4.2 and the unit tests). -/
def get_next_occurrence (r : RecurrenceRule) (d : Date) : Date :=
  if r.rtype = "daily" then addDays d r.interval
  else if r.rtype = "weekly" then weeklyNext r d
  else if r.rtype = "monthly" then monthlyNext r d
  else if r.rtype = "yearly" then yearlyNext r d
  else d

/-- A task, restricted to the fields the engine reads or writes plus a
few opaque ones used only to state frame conditions.  The boundary's
empty due-date string is modelled as `Option.none`. -/
structure Task where
  id : String
  title : String
  description : String
  status : String
  priority : String
  due_date : Option Date
  recurrence : Option RecurrenceRule
deriving DecidableEq

/-- Modelled from the spec: `TodoService._should_generate_occurrence`,
the end-condition eligibility test of §4.2 (`todo_service.py` is not
among the provided sources).  The reference date is not consulted: the
due-date comparison is the caller's job per §4.2. -/
def should_generate_occurrence (t : Task) (_asOf : Date) : Bool :=
  match t.recurrence with
  | Option.none => false
  | some r =>
    if r.rtype ∈ validTypes then
      if r.end_type = "count" then
        r.generated_count < r.end_count.getD 0
      else if r.end_type = "date" then
        match t.due_date, r.end_date with
        | some dd, some ed => formatDate dd ≤ ed
        | _, _ => false
      else true
    else false

/-- The error kinds of §7. -/
inductive ServiceError where
  | validationError (msg : String)
  | notFound (msg : String)
deriving DecidableEq

/-- Modelled from the spec: `TodoService.set_recurrence` on a resolved
task — attaching a rule to a task without a due date fails with a
validation error; otherwise the normalized rule is attached with
`generated_count` reset to 0 (`todo_service.py` is not among the
provided sources). -/
def set_recurrence (t : Task) (raw : RawRule) : Except ServiceError Task :=
  match t.due_date with
  | Option.none => .error (.validationError "task has no due date")
  | some _ =>
    let r := normalize_recurrence_rule raw
    .ok { t with recurrence := some { r with generated_count := 0 } }

/-- Modelled from the spec: `TodoService.clear_recurrence` on a resolved
task — detach the rule, touch nothing else (`todo_service.py` is not
among the provided sources). -/
def clear_recurrence (t : Task) : Task :=
  { t with recurrence := Option.none }

/-- Modelled from the spec: one due-pass step for a single task
(`todo_service.py` is not among the provided sources) — when the task is
a candidate (has a due date at or before the reference date and passes
the eligibility test), return the advanced template task paired with the
new occurrence dated at the original due date; otherwise nothing. -/
def run_due_step (asOf : Date) (t : Task) : Option (Task × Task) :=
  match t.due_date, t.recurrence with
  | some dd, some r =>
    if dateLe dd asOf && should_generate_occurrence t asOf then
      some
        ({ t with
            due_date := some (get_next_occurrence r dd)
            recurrence := some { r with generated_count := r.generated_count + 1 } },
         { t with id := t.id ++ ":occurrence", recurrence := Option.none })
    else Option.none
  | _, _ => Option.none

/-- Modelled from the spec: `TodoService.generate_recurring_tasks`
(`run_due_pass` / `generate_due` of §4.2), the batch driver — one pass,
each task visited once, producing at most one occurrence per task
(`todo_service.py` is not among the provided sources).  Each list entry
pairs the advanced template with its materialized occurrence. -/
def generate_recurring_tasks (tasks : List Task) (asOf : Date) :
    List (Task × Task) :=
  tasks.filterMap (run_due_step asOf)

/-- A Python exception at the API boundary, from `src/api.py`. -/
inductive PyExc where
  | valueError (msg : String)
  | other (msg : String)
deriving DecidableEq

/-- The error string `api_error_handler` reports for an exception
(`src/api.py` lines 16-19). -/
def excMessage : PyExc → String
  | .valueError m => m
  | .other m => "操作失败: " ++ m

/-- What a decorated API method returns to the UI process: either the
wrapped function's value or an error dict. -/
inductive ApiReturn (α : Type) where
  | value (a : α)
  | errorDict (success : Bool) (error : String)
deriving DecidableEq

/-- Translated from `src/api.py` lines 10-20: `api_error_handler` runs
the wrapped call and turns any raised exception into
`{"success": False, "error": ...}`. -/
def api_error_handler {α : Type} (call : Except PyExc α) : ApiReturn α :=
  match call with
  | .ok a => .value a
  | .error e => .errorDict false (excMessage e)

/-- `ServiceError` surfaces as Python's `ValueError` (the tests expect
`assertRaises(ValueError)`). -/
def serviceExc : ServiceError → PyExc
  | .validationError m => .valueError m
  | .notFound m => .valueError m

/-- Translated from `src/api.py` lines 165-169: `Api.set_recurrence`
wraps the service call in `api_error_handler`. -/
def api_set_recurrence (t : Task) (raw : RawRule) : ApiReturn Task :=
  api_error_handler ((set_recurrence t raw).mapError serviceExc)

/-- The daily rule of the §8 at-most-one-per-pass scenario. -/
def dailyRule1 : RecurrenceRule :=
  { rtype := "daily", interval := 1, weekdays := [], month_day := Option.none
    end_type := "never", end_date := Option.none, end_count := Option.none
    generated_count := 0 }

/-- The template task of the §8 at-most-one-per-pass scenario: last due
2024-01-01 with a daily interval-1 rule. -/
def dailyTask : Task :=
  { id := "t1", title := "daily", description := "", status := "not_started"
    priority := "medium", due_date := some ⟨2024, 1, 1⟩
    recurrence := some dailyRule1 }

/-- The §8 count-limit rule: `end_count = 3` already generated 3 times. -/
def countTask : Task :=
  { id := "t2", title := "limited", description := "", status := "not_started"
    priority := "medium", due_date := some ⟨2024, 1, 1⟩
    recurrence := some
      { rtype := "daily", interval := 1, weekdays := []
        month_day := Option.none, end_type := "count"
        end_date := Option.none, end_count := some 3
        generated_count := 3 } }

/-- The §8 weekly rule: interval 1, weekdays Monday/Wednesday/Friday. -/
def weeklyRuleMWF : RecurrenceRule :=
  { rtype := "weekly", interval := 1, weekdays := [0, 2, 4]
    month_day := Option.none, end_type := "never", end_date := Option.none
    end_count := Option.none, generated_count := 0 }

/-- The §8 monthly rule: interval 1, no explicit `month_day`. -/
def monthlyRule1 : RecurrenceRule :=
  { rtype := "monthly", interval := 1, weekdays := []
    month_day := Option.none, end_type := "never", end_date := Option.none
    end_count := Option.none, generated_count := 0 }

/-- The §8 yearly rule: interval 1. -/
def yearlyRule1 : RecurrenceRule :=
  { rtype := "yearly", interval := 1, weekdays := []
    month_day := Option.none, end_type := "never", end_date := Option.none
    end_count := Option.none, generated_count := 0 }

/-- A task that already carries a rule with a nonzero generation counter
(for the attach-resets-counter scenario of §8). -/
def staleCounterTask : Task :=
  { id := "t3", title := "stale", description := "", status := "not_started"
    priority := "medium", due_date := some ⟨2024, 1, 1⟩
    recurrence := some { dailyRule1 with generated_count := 5 } }

/-- The §3 invariants of a normalized rule: a resolved type that is valid
or empty, a positive interval, strictly ascending in-range weekdays that
are empty off-`weekly`, a valid end condition, and an in-range month
day. -/
def RuleInv (q : RecurrenceRule) : Prop :=
  (q.rtype = "" ∨ q.rtype ∈ validTypes) ∧
  1 ≤ q.interval ∧
  List.Chain' (· < ·) q.weekdays ∧
  (∀ w ∈ q.weekdays, w ≤ 6) ∧
  (q.rtype ≠ "weekly" → q.weekdays = []) ∧
  q.end_type ∈ validEndTypes ∧
  (∀ n, q.month_day = some n → 1 ≤ n ∧ n ≤ 31)

theorem one_le_daysInMonthB (leap : Bool) (m : Nat) : 1 ≤ daysInMonthB leap m := by
  unfold daysInMonthB
  split
  · split <;> omega
  · split <;> omega

theorem daysBeforeMonthB_succ (leap : Bool) (m : Nat) (h : 1 ≤ m) :
    daysBeforeMonthB leap (m + 1) =
      daysBeforeMonthB leap m + daysInMonthB leap m := by
  obtain ⟨k, rfl⟩ : ∃ k, m = k + 1 := ⟨m - 1, by omega⟩
  rfl

theorem yearDays (leap : Bool) :
    daysBeforeMonthB leap 12 + daysInMonthB leap 12 =
      365 + (if leap then 1 else 0) := by
  cases leap <;> decide

theorem leapsBefore_succ (y : Nat) (hy : 1 ≤ y) :
    leapsBefore (y + 1) = leapsBefore y + (if isLeap y then 1 else 0) := by
  unfold leapsBefore isLeap
  by_cases h4 : y % 4 = 0 <;> by_cases h100 : y % 100 = 0 <;>
    by_cases h400 : y % 400 = 0 <;> simp [h4, h100, h400] <;> omega

theorem valid_def (d : Date) :
    d.valid = true ↔
      1 ≤ d.year ∧ 1 ≤ d.month ∧ d.month ≤ 12 ∧ 1 ≤ d.day ∧
        d.day ≤ daysInMonth d.year d.month := by
  simp [Date.valid, Bool.and_eq_true, decide_eq_true_eq, and_assoc]

theorem toRataDie_nextDay (d : Date) (h : d.valid = true) :
    toRataDie (nextDay d) = toRataDie d + 1 := by
  obtain ⟨y, m, dy⟩ := d
  obtain ⟨hy, hm1, hm12, hd1, hd2⟩ := (valid_def _).1 h
  try dsimp only at hy hm1 hm12 hd1 hd2
  simp only [daysInMonth] at hd2
  unfold nextDay
  dsimp only
  simp only [daysInMonth]
  split_ifs with h1 h2
  · simp only [toRataDie]
    try dsimp only
    omega
  · simp only [toRataDie]
    try dsimp only
    rw [daysBeforeMonthB_succ _ _ hm1]
    omega
  · have hm : m = 12 := by omega
    subst hm
    simp only [toRataDie]
    try dsimp only
    have e1 : daysBeforeMonthB (isLeap (y + 1)) 1 = 0 := rfl
    rw [leapsBefore_succ y hy, e1]
    have e2 := yearDays (isLeap y)
    cases hiL : isLeap y <;> simp only [hiL, if_true, if_false] at e2 hd2 h1 ⊢ <;> omega

theorem valid_nextDay (d : Date) (h : d.valid = true) :
    (nextDay d).valid = true := by
  obtain ⟨y, m, dy⟩ := d
  obtain ⟨hy, hm1, hm12, hd1, hd2⟩ := (valid_def _).1 h
  try dsimp only at hy hm1 hm12 hd1 hd2
  unfold nextDay
  dsimp only
  split_ifs with h1 h2
  · refine (valid_def _).2 ?_
    try dsimp only
    exact ⟨hy, hm1, hm12, by omega, h1⟩
  · refine (valid_def _).2 ?_
    try dsimp only
    exact ⟨hy, by omega, by omega, by omega, one_le_daysInMonthB _ _⟩
  · refine (valid_def _).2 ?_
    try dsimp only
    exact ⟨by omega, by omega, by omega, by omega, one_le_daysInMonthB _ _⟩

theorem addDays_valid_rataDie (d : Date) (h : d.valid = true) (n : Nat) :
    (addDays d n).valid = true ∧ toRataDie (addDays d n) = toRataDie d + n := by
  induction n with
  | zero => exact ⟨h, rfl⟩
  | succ k ih =>
    refine ⟨valid_nextDay _ ih.1, ?_⟩
    show toRataDie (nextDay (addDays d k)) = _
    rw [toRataDie_nextDay _ ih.1, ih.2]
    omega

theorem weekday_addDays (d : Date) (h : d.valid = true) (n : Nat) :
    (addDays d n).weekday = (d.weekday + n) % 7 := by
  have := (addDays_valid_rataDie d h n).2
  unfold Date.weekday
  rw [this]
  omega
theorem mem_insertWd (a n : Nat) (l : List Nat) :
    a ∈ insertWd n l ↔ a = n ∨ a ∈ l := by
  induction l with
  | nil => simp [insertWd]
  | cons m ms ih =>
    unfold insertWd
    split_ifs with h1 h2
    · simp
    · subst h2
      simp
    · simp [ih]
      tauto

theorem head?_insertWd (n : Nat) (l : List Nat) :
    (insertWd n l).head? = some n ∨ (insertWd n l).head? = l.head? := by
  cases l with
  | nil => left; rfl
  | cons m ms =>
    unfold insertWd
    split_ifs with h1 h2
    · left; rfl
    · right; rfl
    · right; rfl

theorem chain'_insertWd (n : Nat) (l : List Nat)
    (h : List.Chain' (· < ·) l) : List.Chain' (· < ·) (insertWd n l) := by
  induction l with
  | nil => simp [insertWd]
  | cons m ms ih =>
    rw [List.chain'_cons'] at h
    obtain ⟨hhd, hms⟩ := h
    unfold insertWd
    split_ifs with h1 h2
    · rw [List.chain'_cons']
      refine ⟨?_, ?_⟩
      · intro x hx
        simp at hx
        omega
      · rw [List.chain'_cons']
        exact ⟨hhd, hms⟩
    · rw [List.chain'_cons']
      exact ⟨hhd, hms⟩
    · rw [List.chain'_cons']
      refine ⟨?_, ih hms⟩
      intro x hx
      rcases head?_insertWd n ms with he | he
      · rw [he] at hx
        simp at hx
        omega
      · rw [he] at hx
        exact hhd x hx

theorem chain'_sortDedup (l : List Nat) : List.Chain' (· < ·) (sortDedup l) := by
  induction l with
  | nil => simp [sortDedup]
  | cons n ns ih => exact chain'_insertWd n _ ih

theorem mem_sortDedup (a : Nat) (l : List Nat) :
    a ∈ sortDedup l ↔ a ∈ l := by
  induction l with
  | nil => simp [sortDedup]
  | cons n ns ih =>
    unfold sortDedup
    rw [mem_insertWd, ih]
    simp

theorem insertWd_cons_of_lt (n : Nat) (l : List Nat)
    (h : ∀ x ∈ l.head?, n < x) : insertWd n l = n :: l := by
  cases l with
  | nil => rfl
  | cons m ms =>
    have hm : n < m := h m rfl
    unfold insertWd
    rw [if_pos hm]

theorem sortDedup_of_chain' (l : List Nat) (h : List.Chain' (· < ·) l) :
    sortDedup l = l := by
  induction l with
  | nil => rfl
  | cons n ns ih =>
    rw [List.chain'_cons'] at h
    obtain ⟨hhd, hns⟩ := h
    unfold sortDedup
    rw [ih hns]
    exact insertWd_cons_of_lt n ns hhd

theorem keepWeekday_le (v : RawVal) (w : Nat) (h : keepWeekday v = some w) :
    w ≤ 6 := by
  cases v <;> simp [keepWeekday] at h
  case int n =>
    rcases h with ⟨⟨h0, h6⟩, hw⟩
    omega

theorem normType_ok (v : RawVal) :
    normType v = "" ∨ normType v ∈ validTypes := by
  cases v with
  | str s =>
    show (if s ∈ validTypes then s else "") = "" ∨
      (if s ∈ validTypes then s else "") ∈ validTypes
    split_ifs with h
    · right; exact h
    · left; rfl
  | int n => left; rfl
  | list xs => left; rfl
  | none => left; rfl

theorem one_le_normInterval (v : RawVal) : 1 ≤ normInterval v := by
  cases v with
  | int n =>
    show 1 ≤ if 1 ≤ n then n.toNat else 1
    split_ifs with h <;> omega
  | str s =>
    show 1 ≤ (match parseNat? s with
      | some n => if 1 ≤ n then n else 1
      | Option.none => 1)
    cases hn : parseNat? s with
    | none => simp
    | some n =>
      simp only
      split_ifs with h <;> omega
  | list xs => exact le_refl 1
  | none => exact le_refl 1

theorem chain'_normWeekdays (t : String) (v : RawVal) :
    List.Chain' (· < ·) (normWeekdays t v) := by
  unfold normWeekdays
  split_ifs with h
  · cases v with
    | list xs => exact chain'_sortDedup _
    | int n => simp
    | str s => simp
    | none => simp
  · simp

theorem normWeekdays_le (t : String) (v : RawVal) (w : Nat)
    (hw : w ∈ normWeekdays t v) : w ≤ 6 := by
  unfold normWeekdays at hw
  split_ifs at hw with h
  · cases v with
    | list xs =>
      rw [mem_sortDedup, List.mem_filterMap] at hw
      obtain ⟨a, _, ha⟩ := hw
      exact keepWeekday_le a w ha
    | int n => simp at hw
    | str s => simp at hw
    | none => simp at hw
  · simp at hw

theorem normWeekdays_ne_weekly (t : String) (v : RawVal) (h : t ≠ "weekly") :
    normWeekdays t v = [] := by
  unfold normWeekdays
  rw [if_neg h]

theorem normEndType_ok (v : RawVal) : normEndType v ∈ validEndTypes := by
  cases v with
  | str s =>
    show (if s ∈ validEndTypes then s else "never") ∈ validEndTypes
    split_ifs with h
    · exact h
    · simp [validEndTypes]
  | int n => simp [normEndType, validEndTypes]
  | list xs => simp [normEndType, validEndTypes]
  | none => simp [normEndType, validEndTypes]

theorem normMonthDay_ok (v : RawVal) (n : Nat) (h : normMonthDay v = some n) :
    1 ≤ n ∧ n ≤ 31 := by
  cases v <;> simp [normMonthDay] at h
  case int k =>
    rcases h with ⟨⟨h1, h31⟩, hk⟩
    omega

theorem normalize_rule_inv (r : RawRule) :
    RuleInv (normalize_recurrence_rule r) := by
  refine ⟨normType_ok _, one_le_normInterval _, chain'_normWeekdays _ _,
    fun w hw => normWeekdays_le _ _ w hw, fun h => normWeekdays_ne_weekly _ _ h,
    normEndType_ok _, fun n hn => normMonthDay_ok _ n hn⟩

theorem filterMap_keep_int (l : List Nat) (h : ∀ w ∈ l, w ≤ 6) :
    (l.filterMap fun (w : Nat) => keepWeekday (RawVal.int (w : Int))) = l := by
  induction l with
  | nil => rfl
  | cons a as ih =>
    have ha : a ≤ 6 := h a (by simp)
    rw [List.filterMap_cons]
    have hk : keepWeekday (RawVal.int (a : Int)) = some a := by
      simp [keepWeekday]
      omega
    rw [hk, ih fun w hw => h w (by simp [hw])]

theorem normalize_toRaw (q : RecurrenceRule) (h : RuleInv q) :
    normalize_recurrence_rule (toRaw q) = q := by
  obtain ⟨ht, hi, hch, h6, hnw, he, hmd⟩ := h
  have et : normType (RawVal.str q.rtype) = q.rtype := by
    show (if q.rtype ∈ validTypes then q.rtype else "") = q.rtype
    rcases ht with ht | ht
    · rw [ht]
      simp [validTypes]
    · rw [if_pos ht]
  obtain ⟨t, i, ws, md, ety, ed, ec, g⟩ := q
  simp only at ht hi hch h6 hnw he hmd et
  unfold toRaw normalize_recurrence_rule
  dsimp only
  simp only [RecurrenceRule.mk.injEq]
  refine ⟨et, ?_, ?_, ?_, ?_, ?_, ?_, ?_⟩
  · show (if 1 ≤ (i : Int) then (i : Int).toNat else 1) = i
    split_ifs with h1 <;> omega
  · rw [et]
    by_cases hw : t = "weekly"
    · subst hw
      simp only [normWeekdays]
      rw [if_pos trivial, List.filterMap_map]
      have hc : (keepWeekday ∘ fun (w : Nat) => RawVal.int (w : Int)) =
          fun (w : Nat) => keepWeekday (RawVal.int (w : Int)) := rfl
      rw [hc, filterMap_keep_int ws h6]
      exact sortDedup_of_chain' ws hch
    · rw [normWeekdays_ne_weekly _ _ hw, hnw hw]
  · cases md with
    | none => rfl
    | some n =>
      obtain ⟨h1, h31⟩ := hmd n rfl
      show (if (1 ≤ (n : Int) && (n : Int) ≤ 31) then
          some (n : Int).toNat else Option.none) = some n
      split_ifs with hc
      · simp only [Option.some.injEq]
        omega
      · exfalso
        simp only [Bool.and_eq_true, decide_eq_true_eq] at hc
        omega
  · show (if ety ∈ validEndTypes then ety else "never") = ety
    rw [if_pos he]
  · cases ed with
    | none => rfl
    | some s => rfl
  · cases ec with
    | none => rfl
    | some n =>
      show (if 0 ≤ (n : Int) then some (n : Int).toNat
          else Option.none) = some n
      split_ifs with hc
      · simp only [Option.some.injEq]
        omega
      · exfalso
        omega
  · show (if 0 ≤ (g : Int) then (g : Int).toNat else 0) = g
    split_ifs with hc <;> omega

/-- Auxiliary: the weekly step search succeeds on a non-empty in-range
weekday set. -/
theorem weeklyStep_exists (w0 : Nat) (ws : List Nat) (hne : ws ≠ [])
    (h6 : ∀ w ∈ ws, w ≤ 6) :
    ∃ i, weeklyStep w0 ws = some i ∧ 1 ≤ i ∧ i ≤ 7 ∧ (w0 + i) % 7 ∈ ws := by
  obtain ⟨w, hw⟩ : ∃ w, w ∈ ws := List.exists_mem_of_ne_nil ws hne
  have hw6 : w ≤ 6 := h6 w hw
  have key : ∃ x, x ∈ ([1, 2, 3, 4, 5, 6, 7] : List Nat) ∧
      (ws.contains ((w0 + x) % 7)) = true := by
    by_cases hc : w0 % 7 < w
    · refine ⟨w - w0 % 7, ?_, ?_⟩
      · simp
        omega
      · have he : (w0 + (w - w0 % 7)) % 7 = w := by omega
        rw [he]
        simpa using hw
    · refine ⟨w + 7 - w0 % 7, ?_, ?_⟩
      · simp
        omega
      · have he : (w0 + (w + 7 - w0 % 7)) % 7 = w := by omega
        rw [he]
        simpa using hw
  have hsome : (([1, 2, 3, 4, 5, 6, 7] : List Nat).find?
      fun i => ws.contains ((w0 + i) % 7)).isSome := by
    rw [List.find?_isSome]
    exact key
  obtain ⟨i, hi⟩ := Option.isSome_iff_exists.1 hsome
  refine ⟨i, hi, ?_, ?_, ?_⟩
  · have := List.mem_of_find?_eq_some hi
    simp at this
    omega
  · have := List.mem_of_find?_eq_some hi
    simp at this
    omega
  · have := List.find?_some hi
    simpa using this

/-- C1: a single invocation of the batch driver visits each task once and
produces at most one new occurrence per recurring task, however many
cadence periods have elapsed; in particular a task last due 2024-01-01
with a daily interval-1 rule, run with reference date 2024-01-10, yields
exactly one occurrence dated 2024-01-01 while the template advances by
one interval to 2024-01-02. -/
theorem claim_C1 :
    (∀ (ts : List Task) (asOf : Date),
       (generate_recurring_tasks ts asOf).length ≤ ts.length) ∧
    (∀ (t : Task) (asOf : Date),
       (generate_recurring_tasks [t] asOf).length ≤ 1) ∧
    generate_recurring_tasks [dailyTask] ⟨2024, 1, 10⟩ =
      [({ dailyTask with
            due_date := some ⟨2024, 1, 2⟩
            recurrence := some { dailyRule1 with generated_count := 1 } },
        { dailyTask with
            id := "t1:occurrence"
            recurrence := Option.none })] := by
  refine ⟨fun ts asOf => List.length_filterMap_le _ _,
    fun t asOf => List.length_filterMap_le _ _, by decide⟩

/-- C2: a monthly rule advances the month index by exactly `interval`,
lands on `month_day` when set (else on the source day) whenever that day
fits in the target month, and otherwise clips to the target month's last
valid day; in particular a monthly interval-1 rule from 2024-01-31 gives
2024-02-29 (leap year). -/
theorem claim_C2 :
    (∀ (r : RecurrenceRule) (d : Date), r.rtype = "monthly" → d.valid = true →
       monthIndex (get_next_occurrence r d) = monthIndex d + r.interval ∧
       (get_next_occurrence r d).day =
         min (r.month_day.getD d.day)
           (daysInMonth (get_next_occurrence r d).year
             (get_next_occurrence r d).month) ∧
       (∀ n, r.month_day = some n →
         n ≤ daysInMonth (get_next_occurrence r d).year
           (get_next_occurrence r d).month →
         (get_next_occurrence r d).day = n) ∧
       (r.month_day = Option.none →
         d.day ≤ daysInMonth (get_next_occurrence r d).year
           (get_next_occurrence r d).month →
         (get_next_occurrence r d).day = d.day) ∧
       (daysInMonth (get_next_occurrence r d).year
           (get_next_occurrence r d).month < r.month_day.getD d.day →
         (get_next_occurrence r d).day =
           daysInMonth (get_next_occurrence r d).year
             (get_next_occurrence r d).month)) ∧
    get_next_occurrence monthlyRule1 ⟨2024, 1, 31⟩ = ⟨2024, 2, 29⟩ ∧
    formatDate (get_next_occurrence monthlyRule1 ⟨2024, 1, 31⟩) =
      "2024-02-29" := by
  refine ⟨?_, by decide, by decide⟩
  intro r d hr hv
  obtain ⟨hy, hm1, hm12, hd1, hd2⟩ := (valid_def d).1 hv
  have hg : get_next_occurrence r d = monthlyNext r d := by
    simp [get_next_occurrence, hr]
  rw [hg]
  unfold monthlyNext
  dsimp only
  refine ⟨?_, ?_, ?_, ?_, ?_⟩
  · unfold monthIndex
    dsimp only
    omega
  · rfl
  · intro n hn hle
    rw [hn]
    simp only [Option.getD_some]
    omega
  · intro hn hle
    rw [hn]
    simp only [Option.getD_none]
    omega
  · intro hlt
    omega

/-- C3: a yearly rule advances the year by `interval` keeping month and
day, except that a day that does not fit the target month (Feb 29 in a
non-leap year) clips to Feb 28; in particular a yearly interval-1 rule
from 2024-02-29 gives 2025-02-28. -/
theorem claim_C3 :
    (∀ (r : RecurrenceRule) (d : Date), r.rtype = "yearly" →
       (get_next_occurrence r d).year = d.year + r.interval ∧
       (get_next_occurrence r d).month = d.month ∧
       (get_next_occurrence r d).day =
         min d.day (daysInMonth (d.year + r.interval) d.month) ∧
       (d.day ≤ daysInMonth (d.year + r.interval) d.month →
         (get_next_occurrence r d).day = d.day) ∧
       (d.month = 2 → d.day = 29 →
         isLeap (d.year + r.interval) = false →
         (get_next_occurrence r d).day = 28)) ∧
    get_next_occurrence yearlyRule1 ⟨2024, 2, 29⟩ = ⟨2025, 2, 28⟩ ∧
    formatDate (get_next_occurrence yearlyRule1 ⟨2024, 2, 29⟩) =
      "2025-02-28" := by
  refine ⟨?_, by decide, by decide⟩
  intro r d hr
  have hg : get_next_occurrence r d = yearlyNext r d := by
    simp [get_next_occurrence, hr]
  rw [hg]
  unfold yearlyNext
  dsimp only
  refine ⟨rfl, rfl, rfl, ?_, ?_⟩
  · intro hle
    omega
  · intro hm2 hd29 hnl
    rw [hm2, hd29]
    have h28 : daysInMonth (d.year + r.interval) 2 = 28 := by
      unfold daysInMonth
      rw [hnl]
      rfl
    rw [h28]
    omega

/-- C4: the rule normalizer is total and always returns a rule meeting
the §3 invariants: valid-or-empty type (unknown or missing type becomes
the empty string), weekday entries outside integer [0, 6] discarded with
the rest deduplicated and sorted ascending (and empty whenever the type
is not weekly), an interval not parseable as a positive integer becoming
exactly 1 (kept when it is one), and an end type outside
{never, date, count} becoming exactly `never` (kept when inside);
instantiated on the cited tests' inputs: interval 0, interval "abc",
weekdays ["a", 1, 10, -1, 3], type "invalid_type". -/
theorem claim_C4 :
    (∀ raw : RawRule,
       RuleInv (normalize_recurrence_rule raw) ∧
       (∀ s, raw.rtype = RawVal.str s → s ∉ validTypes →
         (normalize_recurrence_rule raw).rtype = "") ∧
       (raw.rtype = RawVal.none →
         (normalize_recurrence_rule raw).rtype = "") ∧
       (∀ xs, raw.weekdays = RawVal.list xs →
         (normalize_recurrence_rule raw).rtype = "weekly" →
         ∀ w, w ∈ (normalize_recurrence_rule raw).weekdays ↔
           ∃ v ∈ xs, keepWeekday v = some w) ∧
       (∀ n : Int, raw.interval = RawVal.int n → n < 1 →
         (normalize_recurrence_rule raw).interval = 1) ∧
       (∀ n : Int, raw.interval = RawVal.int n → 1 ≤ n →
         (normalize_recurrence_rule raw).interval = n.toNat) ∧
       (∀ s, raw.interval = RawVal.str s → parseNat? s = Option.none →
         (normalize_recurrence_rule raw).interval = 1) ∧
       (∀ s, raw.interval = RawVal.str s → parseNat? s = some 0 →
         (normalize_recurrence_rule raw).interval = 1) ∧
       (∀ s n, raw.interval = RawVal.str s → parseNat? s = some n → 1 ≤ n →
         (normalize_recurrence_rule raw).interval = n) ∧
       (raw.interval = RawVal.none →
         (normalize_recurrence_rule raw).interval = 1) ∧
       (∀ s, raw.end_type = RawVal.str s → s ∉ validEndTypes →
         (normalize_recurrence_rule raw).end_type = "never") ∧
       (∀ s, raw.end_type = RawVal.str s → s ∈ validEndTypes →
         (normalize_recurrence_rule raw).end_type = s) ∧
       (raw.end_type = RawVal.none →
         (normalize_recurrence_rule raw).end_type = "never")) ∧
    normalize_recurrence_rule
        { rtype := RawVal.str "weekly"
          interval := RawVal.int 0 } =
      { rtype := "weekly"
        interval := 1
        weekdays := []
        month_day := Option.none
        end_type := "never"
        end_date := Option.none
        end_count := Option.none
        generated_count := 0 } ∧
    (normalize_recurrence_rule
        { rtype := RawVal.str "daily"
          interval := RawVal.str "abc" }).interval = 1 ∧
    (normalize_recurrence_rule
        { rtype := RawVal.str "weekly"
          weekdays := RawVal.list [RawVal.str "a", RawVal.int 1, RawVal.int 10,
            RawVal.int (-1), RawVal.int 3] }).weekdays = [1, 3] ∧
    (normalize_recurrence_rule
        { rtype := RawVal.str "invalid_type" }).rtype = "" := by
  refine ⟨?_, by decide, by decide, by decide, by decide⟩
  intro raw
  refine ⟨normalize_rule_inv raw, ?_, ?_, ?_, ?_, ?_, ?_, ?_, ?_, ?_, ?_,
    ?_, ?_⟩
  · intro s hs hmem
    show normType raw.rtype = ""
    rw [hs]
    show (if s ∈ validTypes then s else "") = ""
    rw [if_neg hmem]
  · intro hs
    show normType raw.rtype = ""
    rw [hs]
    rfl
  · intro xs hxs hweekly w
    show w ∈ normWeekdays (normType raw.rtype) raw.weekdays ↔ _
    have htype : normType raw.rtype = "weekly" := hweekly
    rw [htype, hxs]
    show w ∈ (if ("weekly" : String) = "weekly" then
        sortDedup (xs.filterMap keepWeekday) else []) ↔ _
    rw [if_pos rfl, mem_sortDedup, List.mem_filterMap]
  · intro n hn hlt
    show normInterval raw.interval = 1
    rw [hn]
    show (if 1 ≤ n then n.toNat else 1) = 1
    rw [if_neg (by omega)]
  · intro n hn hge
    show normInterval raw.interval = n.toNat
    rw [hn]
    show (if 1 ≤ n then n.toNat else 1) = n.toNat
    rw [if_pos hge]
  · intro s hs hsn
    show normInterval raw.interval = 1
    rw [hs]
    show (match parseNat? s with
      | some k => if 1 ≤ k then k else 1
      | Option.none => 1) = 1
    rw [hsn]
  · intro s hs hsn
    show normInterval raw.interval = 1
    rw [hs]
    show (match parseNat? s with
      | some k => if 1 ≤ k then k else 1
      | Option.none => 1) = 1
    rw [hsn]
    rfl
  · intro s n hs hsn hge
    show normInterval raw.interval = n
    rw [hs]
    show (match parseNat? s with
      | some k => if 1 ≤ k then k else 1
      | Option.none => 1) = n
    rw [hsn]
    show (if 1 ≤ n then n else 1) = n
    rw [if_pos hge]
  · intro hn
    show normInterval raw.interval = 1
    rw [hn]
    rfl
  · intro s hs hmem
    show normEndType raw.end_type = "never"
    rw [hs]
    show (if s ∈ validEndTypes then s else "never") = "never"
    rw [if_neg hmem]
  · intro s hs hmem
    show normEndType raw.end_type = s
    rw [hs]
    show (if s ∈ validEndTypes then s else "never") = s
    rw [if_pos hmem]
  · intro hn
    show normEndType raw.end_type = "never"
    rw [hn]
    rfl

/-- C5: the rule normalizer is idempotent — normalizing the (re-embedded)
output of normalization returns it unchanged. -/
theorem claim_C5 (x : RawRule) :
    normalize_recurrence_rule (toRaw (normalize_recurrence_rule x)) =
      normalize_recurrence_rule x :=
  normalize_toRaw _ (normalize_rule_inv x)

/-- C6: attaching a recurrence rule to a task with no due date fails with
a validation error; attaching to a task with a due date succeeds and
resets the rule's `generated_count` to 0, even when a previously attached
rule carried a nonzero counter. -/
theorem claim_C6 :
    (∀ (t : Task) (raw : RawRule), t.due_date = Option.none →
       ∃ msg, set_recurrence t raw =
         Except.error (ServiceError.validationError msg)) ∧
    (∀ (t : Task) (raw : RawRule) (d : Date), t.due_date = some d →
       ∃ q, set_recurrence t raw = Except.ok { t with recurrence := some q } ∧
         q.generated_count = 0) ∧
    set_recurrence staleCounterTask { rtype := RawVal.str "daily" } =
      Except.ok { staleCounterTask with recurrence := some {
          rtype := "daily"
          interval := 1
          weekdays := []
          month_day := Option.none
          end_type := "never"
          end_date := Option.none
          end_count := Option.none
          generated_count := 0 } } := by
  refine ⟨?_, ?_, by rfl⟩
  · intro t raw h
    refine ⟨"task has no due date", ?_⟩
    unfold set_recurrence
    rw [h]
  · intro t raw d h
    refine ⟨{ normalize_recurrence_rule raw with generated_count := 0 },
      ?_, rfl⟩
    unfold set_recurrence
    rw [h]

/-- C7: under `end_type = count`, eligibility requires
`generated_count < end_count`; in particular a rule with `end_count = 3`
and `generated_count = 3` is ineligible for every reference date. -/
theorem claim_C7 :
    (∀ (t : Task) (r : RecurrenceRule) (asOf : Date),
       t.recurrence = some r → r.end_type = "count" →
       should_generate_occurrence t asOf = true →
       r.generated_count < r.end_count.getD 0) ∧
    (∀ asOf : Date, should_generate_occurrence countTask asOf = false) := by
  constructor
  · intro t r asOf hrec hct hgen
    unfold should_generate_occurrence at hgen
    rw [hrec] at hgen
    have hgen2 : (if r.rtype ∈ validTypes then
        if r.end_type = "count" then
          decide (r.generated_count < r.end_count.getD 0)
        else if r.end_type = "date" then
          (match t.due_date, r.end_date with
           | some dd, some ed => decide (formatDate dd ≤ ed)
           | _, _ => false)
        else true
      else false) = true := hgen
    rw [hct, if_pos (rfl : ("count" : String) = "count")] at hgen2
    by_cases h1 : r.rtype ∈ validTypes
    · rw [if_pos h1] at hgen2
      exact of_decide_eq_true hgen2
    · rw [if_neg h1] at hgen2
      exact absurd hgen2 (by simp)
  · intro asOf
    rfl

/-- The first match of a search is minimal: every earlier element of a
strictly ascending list fails the predicate. -/
theorem find?_min (p : Nat → Bool) (l : List Nat) (i : Nat)
    (hp : List.Pairwise (· < ·) l) (h : l.find? p = some i) :
    ∀ j ∈ l, j < i → p j = false := by
  induction l with
  | nil => simp at h
  | cons a as ih =>
    rw [List.pairwise_cons] at hp
    obtain ⟨ha, has⟩ := hp
    intro j hj hji
    by_cases hpa : p a = true
    · rw [List.find?_cons_of_pos _ hpa] at h
      have hai : a = i := by
        injection h
      rcases List.mem_cons.1 hj with rfl | hj2
      · omega
      · have := ha j hj2
        omega
    · rw [List.find?_cons_of_neg _ hpa] at h
      rcases List.mem_cons.1 hj with rfl | hj2
      · simp only [Bool.not_eq_true] at hpa
        exact hpa
      · exact ih has h j hj2 hji

/-- Auxiliary: no step smaller than the one the weekly search returns
lands on a chosen weekday. -/
theorem weeklyStep_not_mem_lt (w0 : Nat) (ws : List Nat) (i : Nat)
    (h : weeklyStep w0 ws = some i) (j : Nat) (hj1 : 1 ≤ j) (hji : j < i) :
    ¬((w0 + j) % 7 ∈ ws) := by
  intro hmem
  unfold weeklyStep at h
  have hi7 : i ≤ 7 := by
    have := List.mem_of_find?_eq_some h
    simp at this
    omega
  have hjl : j ∈ ([1, 2, 3, 4, 5, 6, 7] : List Nat) := by
    simp
    omega
  have hfalse := find?_min _ ([1, 2, 3, 4, 5, 6, 7] : List Nat) i
    (by decide) h j hjl hji
  simp at hfalse
  exact hfalse hmem

/-- C8: a weekly rule with an empty weekday set advances by
`interval * 7` days; with a non-empty in-range set the result's weekday
is in the set, the result lies strictly after `from_date` (never
`from_date` itself), the result's week is a whole multiple of `interval`
weeks from `from_date`'s week, and no strictly earlier date after
`from_date` whose weekday is in the set and whose week honors the
interval exists — the result is the next such date; in particular
interval 1 with weekdays {0, 2, 4} from Monday 2024-01-01 gives
Wednesday 2024-01-03, not the same Monday, a Monday-only interval-2 rule
from Monday 2024-01-01 skips to 2024-01-15, and interval 2 with
{0, 2, 4} still gives 2024-01-03 within the source week. -/
theorem claim_C8 :
    (∀ (r : RecurrenceRule) (d : Date), r.rtype = "weekly" →
       r.weekdays = [] →
       get_next_occurrence r d = addDays d (r.interval * 7)) ∧
    (∀ (r : RecurrenceRule) (d : Date), r.rtype = "weekly" →
       r.weekdays ≠ [] → (∀ w ∈ r.weekdays, w ≤ 6) → d.valid = true →
       (get_next_occurrence r d).weekday ∈ r.weekdays ∧
       toRataDie d < toRataDie (get_next_occurrence r d) ∧
       get_next_occurrence r d ≠ d) ∧
    (∀ (r : RecurrenceRule) (d : Date), r.rtype = "weekly" →
       r.weekdays ≠ [] → (∀ w ∈ r.weekdays, w ≤ 6) → d.valid = true →
       1 ≤ r.interval →
       (weekIndex (get_next_occurrence r d) - weekIndex d) % r.interval
         = 0 ∧
       (∀ e : Date, toRataDie d < toRataDie e →
          toRataDie e < toRataDie (get_next_occurrence r d) →
          e.weekday ∈ r.weekdays →
          (weekIndex e - weekIndex d) % r.interval = 0 → False)) ∧
    get_next_occurrence weeklyRuleMWF ⟨2024, 1, 1⟩ = ⟨2024, 1, 3⟩ ∧
    (⟨2024, 1, 1⟩ : Date).weekday = 0 ∧
    (⟨2024, 1, 3⟩ : Date).weekday = 2 ∧
    get_next_occurrence { weeklyRuleMWF with interval := 2, weekdays := [0] }
        ⟨2024, 1, 1⟩ = ⟨2024, 1, 15⟩ ∧
    get_next_occurrence { weeklyRuleMWF with interval := 2 } ⟨2024, 1, 1⟩ =
      ⟨2024, 1, 3⟩ := by
  refine ⟨?_, ?_, ?_, by decide, by decide, by decide, by decide, by decide⟩
  · intro r d hr he
    have hg : get_next_occurrence r d = weeklyNext r d := by
      simp [get_next_occurrence, hr]
    rw [hg]
    unfold weeklyNext
    rw [if_pos he]
  · intro r d hr hne h6 hv
    have hg : get_next_occurrence r d = weeklyNext r d := by
      simp [get_next_occurrence, hr]
    rw [hg]
    unfold weeklyNext
    rw [if_neg hne]
    obtain ⟨i, hfind, hi1, hi7, hmem⟩ :=
      weeklyStep_exists d.weekday r.weekdays hne h6
    rw [hfind]
    dsimp only
    by_cases hwrap : d.weekday < (d.weekday + i) % 7
    · rw [if_pos hwrap]
      have hrd := (addDays_valid_rataDie d hv i).2
      refine ⟨?_, ?_, ?_⟩
      · rw [weekday_addDays d hv i]
        exact hmem
      · omega
      · intro heq
        rw [heq] at hrd
        omega
    · rw [if_neg hwrap]
      have hv1 := (addDays_valid_rataDie d hv i).1
      have hr1 := (addDays_valid_rataDie d hv i).2
      have hr2 := (addDays_valid_rataDie (addDays d i) hv1
        ((r.interval - 1) * 7)).2
      refine ⟨?_, ?_, ?_⟩
      · rw [weekday_addDays (addDays d i) hv1, weekday_addDays d hv i]
        have hm7 : ((d.weekday + i) % 7 + (r.interval - 1) * 7) % 7 =
            (d.weekday + i) % 7 := by omega
        rw [hm7]
        exact hmem
      · omega
      · intro heq
        rw [heq] at hr2
        omega
  · intro r d hr hne h6 hv hitv
    have hg : get_next_occurrence r d = weeklyNext r d := by
      simp [get_next_occurrence, hr]
    rw [hg]
    unfold weeklyNext
    rw [if_neg hne]
    obtain ⟨i, hfind, hi1, hi7, hmem⟩ :=
      weeklyStep_exists d.weekday r.weekdays hne h6
    have hmin := weeklyStep_not_mem_lt d.weekday r.weekdays i hfind
    have hwd : d.weekday = toRataDie d % 7 := rfl
    rw [hfind]
    dsimp only
    by_cases hwrap : d.weekday < (d.weekday + i) % 7
    · rw [if_pos hwrap]
      have hra := (addDays_valid_rataDie d hv i).2
      rw [hwd] at hwrap
      constructor
      · have hoff : weekIndex (addDays d i) - weekIndex d = 0 := by
          unfold weekIndex
          rw [hra]
          omega
        rw [hoff]
        exact Nat.zero_mod _
      · intro e h1 h2 hmem' hweek
        rw [hra] at h2
        refine hmin (toRataDie e - toRataDie d) (by omega) (by omega) ?_
        have he : (d.weekday + (toRataDie e - toRataDie d)) % 7 =
            toRataDie e % 7 := by
          rw [hwd]
          omega
        rw [he]
        exact hmem'
    · rw [if_neg hwrap]
      have hv1 := (addDays_valid_rataDie d hv i).1
      have hr1 := (addDays_valid_rataDie d hv i).2
      have hr2 := (addDays_valid_rataDie (addDays d i) hv1
        ((r.interval - 1) * 7)).2
      rw [hwd] at hwrap
      constructor
      · have hoff : weekIndex (addDays (addDays d i) ((r.interval - 1) * 7)) -
            weekIndex d = r.interval := by
          unfold weekIndex
          rw [hr2, hr1]
          omega
        rw [hoff]
        exact Nat.mod_self _
      · intro e h1 h2 hmem' hweek
        rw [hr2, hr1] at h2
        unfold weekIndex at hweek
        by_cases hcase : toRataDie e / 7 = toRataDie d / 7
        · refine hmin (toRataDie e - toRataDie d) (by omega) (by omega) ?_
          have he : (d.weekday + (toRataDie e - toRataDie d)) % 7 =
              toRataDie e % 7 := by
            rw [hwd]
            omega
          rw [he]
          exact hmem'
        · have hdvd : r.interval ∣ (toRataDie e / 7 - toRataDie d / 7) :=
            Nat.dvd_of_mod_eq_zero hweek
          have hpos : 0 < toRataDie e / 7 - toRataDie d / 7 := by omega
          have hge : r.interval ≤ toRataDie e / 7 - toRataDie d / 7 :=
            Nat.le_of_dvd hpos hdvd
          refine hmin (toRataDie e % 7 + 7 - toRataDie d % 7)
            (by omega) (by omega) ?_
          have he : (d.weekday + (toRataDie e % 7 + 7 - toRataDie d % 7)) %
              7 = toRataDie e % 7 := by
            rw [hwd]
            omega
          rw [he]
          exact hmem'

/-- C9: clearing the recurrence rule removes it, leaves the due date and
every other task field unchanged, is idempotent, and is a no-op on a task
that has no rule. -/
theorem claim_C9 :
    (∀ t : Task, (clear_recurrence t).recurrence = Option.none) ∧
    (∀ t : Task, (clear_recurrence t).id = t.id ∧
      (clear_recurrence t).title = t.title ∧
      (clear_recurrence t).description = t.description ∧
      (clear_recurrence t).status = t.status ∧
      (clear_recurrence t).priority = t.priority ∧
      (clear_recurrence t).due_date = t.due_date) ∧
    (∀ t : Task, clear_recurrence (clear_recurrence t) = clear_recurrence t) ∧
    (∀ t : Task, t.recurrence = Option.none → clear_recurrence t = t) := by
  refine ⟨fun t => rfl, fun t => ⟨rfl, rfl, rfl, rfl, rfl, rfl⟩,
    fun t => rfl, ?_⟩
  intro t h
  obtain ⟨i, ti, de, st, pr, du, re⟩ := t
  simp only at h
  subst h
  rfl

/-- C10: an API method wrapped by `api_error_handler` never propagates an
exception — a raised exception becomes a dict with `success = False` and
a string error message, and every result is either the wrapped value or
such a dict (shown for the generic decorator and for the wrapped
`set_recurrence`). -/
theorem claim_C10 :
    (∀ (α : Type) (call : Except PyExc α) (e : PyExc),
       call = Except.error e →
       api_error_handler call = ApiReturn.errorDict false (excMessage e)) ∧
    (∀ (α : Type) (call : Except PyExc α),
       (∃ a, api_error_handler call = ApiReturn.value a) ∨
       (∃ msg, api_error_handler call = ApiReturn.errorDict false msg)) ∧
    (∀ (t : Task) (raw : RawRule), t.due_date = Option.none →
       ∃ msg, api_set_recurrence t raw = ApiReturn.errorDict false msg) ∧
    api_error_handler (Except.error (PyExc.other "boom") : Except PyExc Nat) =
      ApiReturn.errorDict false ("操作失败: " ++ "boom") := by
  refine ⟨?_, ?_, ?_, rfl⟩
  · intro α call e h
    subst h
    rfl
  · intro α call
    cases call with
    | ok a => exact Or.inl ⟨a, rfl⟩
    | error e => exact Or.inr ⟨excMessage e, rfl⟩
  · intro t raw h
    refine ⟨"task has no due date", ?_⟩
    unfold api_set_recurrence set_recurrence
    rw [h]
    rfl

end MooTodo
